import Mathlib

/-!
Shallow embedding of the PyAI-IDE runtime core: the event bus
(`src/core/event_system.py`), the plugin host (`src/core/plugin_system.py`)
and the execution engine (`src/core/code_executor.py`), with the theorems
settling the frozen claims about them.

Python callables are modelled as identifiers (`Nat`) evaluated through an
environment `CbEnv : Nat → Except PyErr PyObj`: `.ok v` models the callback
returning `v`, `.error e` models the callback raising exception `e`.  The
`try ... except` wrappers in the source are modelled by matching on that
`Except` value.  Python `dict`s whose iteration order is observable
(`PluginManager.plugins`) are modelled as insertion-ordered association
lists; dicts whose order is never observed (`EventSystem.listeners`,
hook tables) are modelled as functions.
-/

/-- Payload of a Python exception raised by a callback (opaque). -/
abbrev PyErr := String

/-- An opaque Python object (callback return values, event arguments). -/
abbrev PyObj := Nat

/-- Behaviour environment for callbacks: callback id to outcome of calling it. -/
abbrev CbEnv := Nat → Except PyErr PyObj

/-- From `event_system.py`, class `EventListener`: an `(event_type, callback,
priority)` triple.  The callback object is represented by `seq`, the global
subscription counter value at subscription time (each Python callback object
registered is a distinct object; `seq` both identifies it and records when it
was subscribed). -/
structure EventListener where
  eventType : String
  priority : Int
  seq : Nat
  deriving DecidableEq, Repr

/-- The comparison `list.sort()` uses via `EventListener.__lt__`
(`self.priority > other.priority`): in the sorted (ascending w.r.t. `<`)
order, `a` may stay before `b` iff not `b < a`, i.e. `b.priority ≤
a.priority` — higher priority first.  Python's sort is a stable sort, which
`List.mergeSort` models exactly. -/
def listenerLE (a b : EventListener) : Bool := decide (b.priority ≤ a.priority)

/-- A record of `EventSystem.event_history`: the dict
`{'type': ..., 'args': ..., 'kwargs': ...}` built by `_record_event`
(keyword arguments are folded into the argument list). -/
structure EventRecord where
  type : String
  args : List PyObj
  deriving DecidableEq, Repr

/-- From `event_system.py`, class `EventSystem`.  `nextSeq` is the ghost
counter handing each subscription its `seq`. -/
structure EventSystem where
  listeners : String → List EventListener
  eventHistory : List EventRecord
  maxHistory : Nat
  nextSeq : Nat

/-- `EventSystem.__init__`: no listeners, empty history, `max_history = 1000`. -/
def EventSystem.init : EventSystem :=
  { listeners := fun _ => [], eventHistory := [], maxHistory := 1000, nextSeq := 0 }

/-- `EventSystem.subscribe`: build the listener, append it to the event
type's list and `sort()` the list (stable, by descending priority). -/
def EventSystem.subscribe (s : EventSystem) (eventType : String) (priority : Int) :
    EventSystem × EventListener :=
  let listener : EventListener := ⟨eventType, priority, s.nextSeq⟩
  let newList := ((s.listeners eventType) ++ [listener]).mergeSort listenerLE
  ({ s with
      listeners := fun t => if t = eventType then newList else s.listeners t,
      nextSeq := s.nextSeq + 1 },
   listener)

/-- `EventSystem.unsubscribe`: `list.remove` drops the first occurrence and
raises `ValueError` (caught, returning `False`) when absent; a missing
event-type key also returns `False` (the model's listener map is total with
default `[]`, covering that branch). -/
def EventSystem.unsubscribe (s : EventSystem) (l : EventListener) :
    EventSystem × Bool :=
  if l ∈ s.listeners l.eventType then
    ({ s with
        listeners := fun t =>
          if t = l.eventType then (s.listeners t).erase l else s.listeners t },
     true)
  else (s, false)

/-- `EventSystem._record_event`: append the record, then if the history
exceeds `max_history` keep `event_history[-max_history:]`.  (Python slice
quirk kept faithfully: `[-0:]` is the whole list, so a capacity of `0`
never trims.) -/
def EventSystem.recordEvent (s : EventSystem) (t : String) (args : List PyObj) :
    EventSystem :=
  let h := s.eventHistory ++ [⟨t, args⟩]
  let h2 :=
    if s.maxHistory < h.length then
      if s.maxHistory = 0 then h else h.drop (h.length - s.maxHistory)
    else h
  { s with eventHistory := h2 }

/-- The dispatch loop of `EventSystem.emit`
(`for listener ...: try: results.append(listener.callback(...)) except: print`):
every listener is invoked; a raising callback is caught (only printed) and
contributes no result.  Returns the collected results and the listeners in
invocation order. -/
def dispatch (env : CbEnv) : List EventListener → List PyObj × List EventListener
  | [] => ([], [])
  | l :: rest =>
    match env l.seq with
    | .ok v => ((v :: (dispatch env rest).1), l :: (dispatch env rest).2)
    | .error _ => ((dispatch env rest).1, l :: (dispatch env rest).2)

/-- Result of one `emit` call: the new system state, the returned list of
callback results, and (ghost) the listeners in invocation order. -/
structure EmitResult where
  sys : EventSystem
  results : List PyObj
  invoked : List EventListener

/-- `EventSystem.emit`: record the event in history, then run the dispatch
loop over the current listeners of the type. -/
def EventSystem.emit (s : EventSystem) (env : CbEnv) (t : String)
    (args : List PyObj) : EmitResult :=
  let s2 := s.recordEvent t args
  let d := dispatch env (s.listeners t)
  ⟨s2, d.1, d.2⟩

/-- `EventSystem.get_event_history`: the whole history (a copy) or the
records filtered by type. -/
def EventSystem.getEventHistory (s : EventSystem) (filterType : Option String) :
    List EventRecord :=
  match filterType with
  | none => s.eventHistory
  | some t => s.eventHistory.filter (fun e => e.type = t)

/-- A sequence of `subscribe` calls, in order (event type, priority). -/
def EventSystem.subscribeAll (s : EventSystem) (subs : List (String × Int)) :
    EventSystem :=
  subs.foldl (fun s p => (s.subscribe p.1 p.2).1) s

/-- A sequence of `emit` calls, in order (event type, args). -/
def EventSystem.emitAll (s : EventSystem) (env : CbEnv)
    (evs : List (String × List PyObj)) : EventSystem :=
  evs.foldl (fun s e => (s.emit env e.1 e.2).sys) s

/-- Closed form of the dispatch loop: every listener is invoked, in list
order, and the results are exactly the successful callbacks' values in that
order. -/
theorem dispatch_eq (env : CbEnv) (ls : List EventListener) :
    dispatch env ls =
      (ls.filterMap (fun l => (env l.seq).toOption), ls) := by
  induction ls with
  | nil => rfl
  | cons l rest ih =>
    simp only [dispatch, List.filterMap_cons]
    cases h : env l.seq <;> simp [ih, Except.toOption, h]

/-- C2: a raising callback is caught inside `emit` (which thus never raises),
every subsequent listener is still invoked, and the returned list holds
exactly the values of the callbacks that did not raise, in call order. -/
theorem emit_error_isolation (s : EventSystem) (env : CbEnv) (t : String)
    (args : List PyObj) :
    (s.emit env t args).results
        = (s.listeners t).filterMap (fun l => (env l.seq).toOption)
      ∧ (s.emit env t args).invoked = s.listeners t := by
  constructor <;> simp [EventSystem.emit, dispatch_eq]

/-- The last `n` elements of a list (what the Python slice `l[-n:]` yields
for `n ≥ 1`). -/
def lastN (n : Nat) (l : List α) : List α := l.drop (l.length - n)

theorem lastN_length_le (n : Nat) (l : List α) : (lastN n l).length ≤ n := by
  simp only [lastN, List.length_drop]; omega

theorem lastN_of_le (n : Nat) (l : List α) (h : l.length ≤ n) : lastN n l = l := by
  simp only [lastN]
  have : l.length - n = 0 := by omega
  simp [this]

/-- Dropping a prefix that leaves at least `n` elements does not change the
last `n` elements, whatever is appended after. -/
theorem lastN_drop_append (n k : Nat) (l m : List α) (hk : k ≤ l.length)
    (h : n ≤ l.length - k) :
    lastN n (l.drop k ++ m) = lastN n (l ++ m) := by
  simp only [lastN, List.drop_append_eq_append_drop, List.length_append,
    List.length_drop, List.drop_drop]
  have h1 : k + (l.length - k + m.length - n) = l.length + m.length - n := by omega
  have h2 : l.length - k + m.length - n - (l.length - k)
      = l.length + m.length - n - l.length := by omega
  rw [h1, h2]

theorem lastN_lastN_append (n : Nat) (l m : List α) :
    lastN n (lastN n l ++ m) = lastN n (l ++ m) := by
  by_cases h : l.length ≤ n
  · rw [lastN_of_le n l h]
  · exact lastN_drop_append n (l.length - n) l m (by omega) (by omega)

/-- `_record_event` keeps exactly the last `max_history` records (capacity at
least 1; the history it starts from is within capacity). -/
theorem recordEvent_history (s : EventSystem) (t : String) (args : List PyObj)
    (hcap : 1 ≤ s.maxHistory) (hlen : s.eventHistory.length ≤ s.maxHistory) :
    (s.recordEvent t args).eventHistory
      = lastN s.maxHistory (s.eventHistory ++ [⟨t, args⟩]) := by
  simp only [EventSystem.recordEvent, lastN]
  split
  case isTrue h =>
    have h0 : ¬ s.maxHistory = 0 := by omega
    simp [h0]
  case isFalse h =>
    have h0 : (s.eventHistory ++ [(⟨t, args⟩ : EventRecord)]).length - s.maxHistory
        = 0 := by
      simp only [List.length_append, List.length_singleton]
      simp only [List.length_append, List.length_singleton, not_lt] at h
      omega
    rw [h0, List.drop_zero]

theorem recordEvent_maxHistory (s : EventSystem) (t : String) (args : List PyObj) :
    (s.recordEvent t args).maxHistory = s.maxHistory := by
  simp [EventSystem.recordEvent]

/-- Running a sequence of emissions: the history ends up being the last
`max_history` of the starting history followed by the emitted records. -/
theorem emitAll_history (env : CbEnv) (evs : List (String × List PyObj)) :
    ∀ s : EventSystem, 1 ≤ s.maxHistory → s.eventHistory.length ≤ s.maxHistory →
    (s.emitAll env evs).eventHistory
        = lastN s.maxHistory
            (s.eventHistory ++ evs.map (fun e => EventRecord.mk e.1 e.2))
      ∧ (s.emitAll env evs).maxHistory = s.maxHistory := by
  induction evs with
  | nil =>
    intro s hcap hlen
    refine ⟨?_, rfl⟩
    simp only [EventSystem.emitAll, List.foldl_nil, List.map_nil, List.append_nil]
    exact (lastN_of_le _ _ hlen).symm
  | cons e rest ih =>
    intro s hcap hlen
    have step : (s.emit env e.1 e.2).sys = s.recordEvent e.1 e.2 := rfl
    have hmax := recordEvent_maxHistory s e.1 e.2
    have hrec := recordEvent_history s e.1 e.2 hcap hlen
    have hlen2 : (s.recordEvent e.1 e.2).eventHistory.length ≤
        (s.recordEvent e.1 e.2).maxHistory := by
      rw [hrec, hmax]; exact lastN_length_le _ _
    have ihs := ih (s.recordEvent e.1 e.2) (by rw [hmax]; exact hcap) hlen2
    have fold : s.emitAll env (e :: rest)
        = (s.recordEvent e.1 e.2).emitAll env rest := rfl
    rw [fold]
    refine ⟨?_, by rw [ihs.2, hmax]⟩
    rw [ihs.1, hrec, hmax, lastN_lastN_append]
    simp [List.append_assoc]

/-- C4: with capacity `N ≥ 1` (the constructor's default is 1000), after
`N + k` emissions (`k ≥ 1`) into a system that started with empty history,
the unfiltered history is exactly the most recent `N` emitted events in
emission order (oldest first), its length is exactly `N`, and after any
sequence of emissions whatsoever the history never exceeds `N` records. -/
theorem history_bound (cap k : Nat) (s : EventSystem) (env : CbEnv)
    (evs : List (String × List PyObj))
    (hcap : 1 ≤ cap) (hhist : s.eventHistory = []) (hmax : s.maxHistory = cap)
    (hlen : evs.length = cap + k) (hk : 1 ≤ k) :
    (s.emitAll env evs).getEventHistory none
        = (evs.map (fun e => EventRecord.mk e.1 e.2)).drop k
      ∧ ((s.emitAll env evs).getEventHistory none).length = cap
      ∧ (∀ evs2 : List (String × List PyObj),
          ((s.emitAll env evs2).getEventHistory none).length ≤ cap)
      ∧ EventSystem.init.maxHistory = 1000 := by
  have hbound : ∀ evs2 : List (String × List PyObj),
      ((s.emitAll env evs2).getEventHistory none).length ≤ cap := by
    intro evs2
    have h := emitAll_history env evs2 s (by omega) (by rw [hhist]; simp)
    simp only [EventSystem.getEventHistory, h.1, hmax]
    exact lastN_length_le _ _
  have h := emitAll_history env evs s (by omega) (by rw [hhist]; simp)
  have hmain : (s.emitAll env evs).getEventHistory none
      = (evs.map (fun e => EventRecord.mk e.1 e.2)).drop k := by
    simp only [EventSystem.getEventHistory, h.1, hhist, hmax, List.nil_append,
      lastN, List.length_map, hlen]
    congr 1
    omega
  refine ⟨hmain, ?_, hbound, rfl⟩
  rw [hmain]
  simp only [List.length_drop, List.length_map, hlen]
  omega

/-- Concrete input for the history-bound claim: capacity 2, three emissions. -/
def historySys : EventSystem :=
  { listeners := fun _ => [], eventHistory := [], maxHistory := 2, nextSeq := 0 }

/-- Constant environment used by concrete scenarios: every callback returns 0. -/
def okEnv : CbEnv := fun _ => .ok 0

theorem history_bound_witness :
    (historySys.emitAll okEnv [("a", []), ("b", []), ("c", [])]).getEventHistory none
        = ([("a", ([] : List PyObj)), ("b", []), ("c", [])].map
            (fun e => EventRecord.mk e.1 e.2)).drop 1
      ∧ ((historySys.emitAll okEnv
            [("a", []), ("b", []), ("c", [])]).getEventHistory none).length = 2
      ∧ (∀ evs2 : List (String × List PyObj),
          ((historySys.emitAll okEnv evs2).getEventHistory none).length ≤ 2)
      ∧ EventSystem.init.maxHistory = 1000 :=
  history_bound 2 1 historySys okEnv [("a", []), ("b", []), ("c", [])]
    (by decide) rfl rfl rfl (by decide)

/-- Concrete at-capacity state for the no-listener emission claim: capacity 1,
one record already stored, nobody subscribed. -/
def fullSys : EventSystem :=
  { listeners := fun _ => [], eventHistory := [⟨"e0", []⟩], maxHistory := 1,
    nextSeq := 0 }

/-- C10 counterexample: with no listeners, `emit` returns `[]` and the event's
record is appended, but at capacity the history does **not** grow — the new
record evicts the oldest and the length stays 1, refuting the claim's
"history grows" clause at this input. -/
theorem emit_no_listeners_cex :
    (fullSys.emit okEnv "e1" []).results = []
      ∧ (fullSys.emit okEnv "e1" []).sys.eventHistory = [⟨"e1", []⟩]
      ∧ ¬ ((fullSys.emit okEnv "e1" []).sys.eventHistory.length
            = fullSys.eventHistory.length + 1) := by
  refine ⟨rfl, rfl, by decide⟩

/-- C10 (amended): for an event type with no subscribed listeners, `emit`
returns the empty list, invokes nobody, and appends exactly one record of the
event to the history whenever the history is below capacity; at capacity the
record is still appended but the oldest record is evicted, so the length does
not grow. -/
theorem emit_no_listeners (s : EventSystem) (env : CbEnv) (t : String)
    (args : List PyObj)
    (hl : s.listeners t = []) (hcap : s.eventHistory.length < s.maxHistory) :
    (s.emit env t args).results = []
      ∧ (s.emit env t args).invoked = []
      ∧ (s.emit env t args).sys.eventHistory = s.eventHistory ++ [⟨t, args⟩] := by
  refine ⟨?_, ?_, ?_⟩
  · simp [EventSystem.emit, dispatch_eq, hl]
  · simp [EventSystem.emit, dispatch_eq, hl]
  · show (s.recordEvent t args).eventHistory = _
    simp only [EventSystem.recordEvent]
    have h0 : ¬ s.maxHistory
        < (s.eventHistory ++ [(⟨t, args⟩ : EventRecord)]).length := by
      simp only [List.length_append, List.length_singleton]
      omega
    rw [if_neg h0]

theorem emit_no_listeners_witness :
    (historySys.emit okEnv "a" []).results = []
      ∧ (historySys.emit okEnv "a" []).invoked = []
      ∧ (historySys.emit okEnv "a" []).sys.eventHistory
          = historySys.eventHistory ++ [⟨"a", []⟩] :=
  emit_no_listeners historySys okEnv "a" [] rfl (by decide)

/-- The dispatch order the event bus maintains: strictly higher priority
first; equal priorities in subscription order (smaller `seq` first). -/
def listenerOrdered (a b : EventListener) : Prop :=
  b.priority < a.priority ∨ (a.priority = b.priority ∧ a.seq < b.seq)

theorem listenerLE_trans : ∀ a b c : EventListener,
    listenerLE a b = true → listenerLE b c = true → listenerLE a c = true := by
  intro a b c hab hbc
  simp only [listenerLE, decide_eq_true_eq] at *
  omega

theorem listenerLE_total : ∀ a b : EventListener,
    (listenerLE a b || listenerLE b a) = true := by
  intro a b
  simp only [listenerLE, Bool.or_eq_true, decide_eq_true_eq]
  omega

/-- Two distinct members of a list occur in one of the two relative orders. -/
theorem pair_sublist_of_mem {α : Type _} {a b : α} :
    ∀ {l : List α}, a ∈ l → b ∈ l → a ≠ b →
      [a, b].Sublist l ∨ [b, a].Sublist l := by
  intro l
  induction l with
  | nil => intro ha; exact absurd ha (List.not_mem_nil a)
  | cons x rest ih =>
    intro ha hb hne
    rcases List.mem_cons.mp ha with rfl | ha2
    · have hb2 : b ∈ rest := by
        rcases List.mem_cons.mp hb with h | h
        · exact absurd h.symm hne
        · exact h
      exact Or.inl (List.Sublist.cons₂ a (List.singleton_sublist.mpr hb2))
    · rcases List.mem_cons.mp hb with rfl | hb2
      · exact Or.inr (List.Sublist.cons₂ b (List.singleton_sublist.mpr ha2))
      · rcases ih ha2 hb2 hne with h | h
        · exact Or.inl (List.Sublist.cons x h)
        · exact Or.inr (List.Sublist.cons x h)

/-- In a duplicate-free list two distinct elements occur in only one
relative order. -/
theorem not_pair_sublist_both {α : Type _} {a b : α} (hne : a ≠ b) :
    ∀ {l : List α}, l.Nodup → [a, b].Sublist l → [b, a].Sublist l → False := by
  intro l
  induction l with
  | nil => intro _ h; cases h
  | cons x rest ih =>
    intro hnd h1 h2
    cases h1 with
    | cons _ h1' =>
      cases h2 with
      | cons _ h2' => exact ih hnd.of_cons h1' h2'
      | cons₂ h2' =>
        have hbm : b ∈ rest := h1'.subset (by simp)
        exact (List.nodup_cons.mp hnd).1 hbm
    | cons₂ h1' =>
      cases h2 with
      | cons _ h2' =>
        have ham : a ∈ rest := h2'.subset (by simp)
        exact (List.nodup_cons.mp hnd).1 ham
      | cons₂ h2' => exact hne rfl

/-- Stability of `list.sort()` under `EventListener.__lt__`: sorting a list
whose equal-priority entries are in subscription order (and whose `seq` tags
are distinct) yields a list pairwise in dispatch order. -/
theorem mergeSort_listenerOrdered (l : List EventListener)
    (hC : l.Pairwise (fun a b => a.priority = b.priority → a.seq < b.seq))
    (hnd : (l.map EventListener.seq).Nodup) :
    (l.mergeSort listenerLE).Pairwise listenerOrdered := by
  have hndl : l.Nodup := List.Nodup.of_map _ hnd
  have hperm := List.mergeSort_perm l listenerLE
  have hout_nd : (l.mergeSort listenerLE).Nodup := hperm.symm.nodup hndl
  have hsorted := List.sorted_mergeSort listenerLE_trans listenerLE_total l
  rw [List.pairwise_iff_forall_sublist]
  intro a b hab
  have hle := List.pairwise_iff_forall_sublist.mp hsorted hab
  have hpba : b.priority ≤ a.priority := by
    simpa [listenerLE] using hle
  rcases eq_or_lt_of_le hpba with heq | hlt
  · right
    refine ⟨heq.symm, ?_⟩
    by_contra hseq
    have hne : a ≠ b := by
      rintro rfl
      exact (List.nodup_iff_sublist.mp hout_nd a) hab
    have hamem : a ∈ l := hperm.mem_iff.mp (hab.subset (by simp))
    have hbmem : b ∈ l := hperm.mem_iff.mp (hab.subset (by simp))
    have hsne : a.seq ≠ b.seq := fun h =>
      hne (List.inj_on_of_nodup_map hnd hamem hbmem h)
    rcases pair_sublist_of_mem hamem hbmem hne with h1 | h2
    · exact hseq (List.pairwise_iff_forall_sublist.mp hC h1 heq.symm)
    · have hba : [b, a].Sublist (l.mergeSort listenerLE) := by
        refine List.sublist_mergeSort listenerLE_trans listenerLE_total ?_ h2
        have hle2 : listenerLE b a = true := by
          simp only [listenerLE, decide_eq_true_eq]
          omega
        simp [List.pairwise_cons, hle2]
      exact not_pair_sublist_both hne hout_nd hab hba
  · exact Or.inl hlt

/-- Invariant of a state reached by the subscription sequence `subs` from a
fresh system: per-type listener lists are pairwise in dispatch order, carry
distinct `seq` tags, and each listener's `seq` indexes the subscription that
created it. -/
def listenerInv (s : EventSystem) (subs : List (String × Int)) : Prop :=
  s.nextSeq = subs.length ∧
  ∀ t : String,
    (s.listeners t).Pairwise listenerOrdered ∧
    ((s.listeners t).map EventListener.seq).Nodup ∧
    ∀ l ∈ s.listeners t,
      l.eventType = t ∧ l.seq < subs.length ∧ subs[l.seq]? = some (t, l.priority)

theorem subscribe_inv (s : EventSystem) (subs : List (String × Int))
    (t : String) (p : Int) (h : listenerInv s subs) :
    listenerInv (s.subscribe t p).1 (subs ++ [(t, p)]) := by
  obtain ⟨hseq, hinv⟩ := h
  constructor
  · simp [EventSystem.subscribe, hseq]
  intro t'
  by_cases ht : t' = t
  case neg =>
    have hlist : (s.subscribe t p).1.listeners t' = s.listeners t' := by
      simp [EventSystem.subscribe, ht]
    obtain ⟨h1, h2, h3⟩ := hinv t'
    refine ⟨by rw [hlist]; exact h1, by rw [hlist]; exact h2, ?_⟩
    intro l hl
    rw [hlist] at hl
    obtain ⟨he, hlt, hget⟩ := h3 l hl
    refine ⟨he, ?_, ?_⟩
    · simp only [List.length_append, List.length_singleton]
      omega
    · rw [List.getElem?_append_left hlt]
      exact hget
  case pos =>
    subst ht
    obtain ⟨h1, h2, h3⟩ := hinv t'
    have hlist : (s.subscribe t' p).1.listeners t'
        = ((s.listeners t')
            ++ [(⟨t', p, s.nextSeq⟩ : EventListener)]).mergeSort listenerLE := by
      simp [EventSystem.subscribe]
    have hC : ((s.listeners t') ++ [(⟨t', p, s.nextSeq⟩ : EventListener)]).Pairwise
        (fun a b => a.priority = b.priority → a.seq < b.seq) := by
      rw [List.pairwise_append]
      refine ⟨h1.imp ?_, List.pairwise_singleton _ _, ?_⟩
      · intro a b hab
        intro hpe
        rcases hab with hgt | ⟨hpeq, hslt⟩
        · omega
        · exact hslt
      · intro a ha b hb
        rcases List.mem_singleton.mp hb with rfl
        intro _
        have h4 := (h3 a ha).2.1
        show a.seq < s.nextSeq
        omega
    have hnd2 : (((s.listeners t') ++ [(⟨t', p, s.nextSeq⟩ : EventListener)]).map
        EventListener.seq).Nodup := by
      rw [List.map_append]
      rw [List.nodup_append]
      refine ⟨h2, List.nodup_singleton _, ?_⟩
      intro x hx hx2
      rcases List.mem_singleton.mp hx2 with rfl
      rcases List.mem_map.mp hx with ⟨l, hl, hls⟩
      have h4 := (h3 l hl).2.1
      have h5 : l.seq = s.nextSeq := hls
      omega
    have hperm := List.mergeSort_perm
      ((s.listeners t') ++ [(⟨t', p, s.nextSeq⟩ : EventListener)]) listenerLE
    refine ⟨?_, ?_, ?_⟩
    · rw [hlist]
      exact mergeSort_listenerOrdered _ hC hnd2
    · rw [hlist]
      exact ((hperm.map EventListener.seq).symm).nodup hnd2
    · intro l hl
      rw [hlist] at hl
      have hl2 := hperm.mem_iff.mp hl
      rcases List.mem_append.mp hl2 with hm | hm
      · obtain ⟨he, hlt, hget⟩ := h3 l hm
        refine ⟨he, ?_, ?_⟩
        · simp only [List.length_append, List.length_singleton]
          omega
        · rw [List.getElem?_append_left hlt]
          exact hget
      · rcases List.mem_singleton.mp hm with rfl
        refine ⟨rfl, ?_, ?_⟩
        · show s.nextSeq < (subs ++ [(t', p)]).length
          simp only [List.length_append, List.length_singleton, hseq]
          omega
        · show (subs ++ [(t', p)])[s.nextSeq]? = some (t', p)
          rw [hseq]
          exact List.getElem?_concat_length subs (t', p)

theorem init_inv : listenerInv EventSystem.init [] := by
  refine ⟨rfl, ?_⟩
  intro t
  refine ⟨List.Pairwise.nil, List.nodup_nil, ?_⟩
  intro l hl
  exact absurd hl (List.not_mem_nil l)

theorem subscribeAll_inv (subs : List (String × Int)) :
    ∀ (s : EventSystem) (subs0 : List (String × Int)),
      listenerInv s subs0 →
      listenerInv (s.subscribeAll subs) (subs0 ++ subs) := by
  induction subs with
  | nil =>
    intro s subs0 h
    simpa [EventSystem.subscribeAll] using h
  | cons q rest ih =>
    obtain ⟨qt, qp⟩ := q
    intro s subs0 h
    have step : s.subscribeAll ((qt, qp) :: rest)
        = ((s.subscribe qt qp).1).subscribeAll rest := rfl
    rw [step]
    have h2 := ih (s.subscribe qt qp).1 (subs0 ++ [(qt, qp)])
      (subscribe_inv s subs0 qt qp h)
    simpa [List.append_assoc] using h2

/-- C1: after any sequence of `subscribe` calls on a fresh system, `emit`
invokes the listeners of an event type in strictly descending priority
order, with equal-priority listeners in subscription order (smaller
subscription index `seq` first); moreover each invoked listener's `seq`
indexes the subscription (event type, priority) that created it, so the
`seq` tie-break is genuinely subscription order. -/
theorem emit_priority_order (subs : List (String × Int)) (env : CbEnv)
    (t : String) (args : List PyObj) :
    (((EventSystem.init.subscribeAll subs).emit env t args).invoked).Pairwise
        listenerOrdered
      ∧ ∀ l ∈ ((EventSystem.init.subscribeAll subs).emit env t args).invoked,
          l.eventType = t ∧ l.seq < subs.length
            ∧ subs[l.seq]? = some (t, l.priority) := by
  have hinv := subscribeAll_inv subs EventSystem.init [] init_inv
  simp only [List.nil_append] at hinv
  obtain ⟨-, hinv⟩ := hinv
  obtain ⟨h1, -, h3⟩ := hinv t
  have hinvk : ((EventSystem.init.subscribeAll subs).emit env t args).invoked
      = (EventSystem.init.subscribeAll subs).listeners t := by
    simp [EventSystem.emit, dispatch_eq]
  rw [hinvk]
  exact ⟨h1, h3⟩

/-- From `plugin_system.py`, enum `PluginHook`. -/
inductive PluginHook
  | on_startup | on_shutdown | on_project_open | on_project_close
  | on_file_save | on_file_open | on_model_loaded | on_model_unloaded
  | on_github_connected | on_github_disconnected
  | before_code_execution | after_code_execution
  deriving DecidableEq, Repr

/-- A loaded plugin instance (class `BasePlugin`): name, version, the
`enabled` flag and the per-plugin hook registrations (the per-plugin
`register_hook` appends; `get_hook_callbacks` reads, defaulting to `[]`).
Callbacks are ids resolved through `CbEnv`. -/
structure Plugin where
  name : String
  version : String
  enabled : Bool
  hooks : PluginHook → List Nat

/-- `BasePlugin.get_hook_callbacks`. -/
def Plugin.getHookCallbacks (p : Plugin) (h : PluginHook) : List Nat := p.hooks h

/-- From `plugin_system.py`, class `PluginManager`: the registry
`self.plugins` (a Python dict: insertion-ordered, keyed by plugin name,
iterated by `trigger_hook`) and the global hook table `self.hooks`. -/
structure PluginManager where
  plugins : List (String × Plugin)
  hooks : PluginHook → List Nat

/-- `PluginManager.__init__`. -/
def PluginManager.init : PluginManager := ⟨[], fun _ => []⟩

/-- Python dict assignment `d[k] = v`: replaces the entry in place when the
key exists (keeping its position), else appends the new entry. -/
def dictInsert (m : List (String × Plugin)) (k : String) (v : Plugin) :
    List (String × Plugin) :=
  if m.any (fun q => q.1 == k) then
    m.map (fun q => if q.1 = k then (k, v) else q)
  else m ++ [(k, v)]

/-- Python dict lookup (`d.get(k)` / `k in d` + `d[k]`). -/
def dictGet (m : List (String × Plugin)) (k : String) : Option Plugin :=
  (m.find? (fun q => q.1 == k)).map (fun q => q.2)

/-- Python `del d[k]` (keys are unique, so dropping every entry with the
key drops the one entry, keeping the others' order). -/
def dictRemove (m : List (String × Plugin)) (k : String) :
    List (String × Plugin) :=
  m.filter (fun q => q.1 != k)

/-- Ghost trace of the lifecycle-contract calls the manager makes on plugin
instances. -/
inductive LifecycleCall
  | initCall (name : String)
  | shutdownCall (name : String)
  deriving DecidableEq, Repr

/-- A member of a loaded Python module, as `inspect.getmembers` presents it
(sorted by member name): whether it is a strict `BasePlugin` subclass
(`issubclass(obj, BasePlugin) and obj is not BasePlugin`), and — for such a
class — the instance `plugin_class()` would produce, together with the
outcome of calling its `initialize()` (`.ok b` models returning `b`,
`.error` models raising, caught by the outer `except`; `instHooks` are the
hooks the instance carries). -/
structure ModuleMember where
  memberName : String
  isPluginClass : Bool
  instName : String
  instVersion : String
  initResult : Except PyErr Bool
  instHooks : PluginHook → List Nat

/-- A Python module as `load_plugin` observes it: the `Path.exists()` check,
the `spec_from_file_location`/`exec_module` outcome, and the module members
in `getmembers` order. -/
structure PyModule where
  pathExists : Bool
  loadOk : Bool
  members : List ModuleMember

/-- Result of one `load_plugin` call. -/
structure LoadResult where
  mgr : PluginManager
  result : Option Plugin
  calls : List LifecycleCall

/-- `PluginManager.load_plugin`: a missing file or a failed module load
returns `None`; the first `BasePlugin` subclass among the members is taken
(the scan `break`s at the first hit, so further subclasses are ignored); no
subclass returns `None`; `initialize()` returning `False` (or raising,
caught by the outer `except`) returns `None` with nothing registered; on
success the instance is registered under its declared name by dict
assignment — silently overwriting any previous entry under that name, with
no `shutdown()` call on the old instance. -/
def PluginManager.loadPlugin (m : PluginManager) (mod : PyModule) : LoadResult :=
  if !mod.pathExists then ⟨m, none, []⟩
  else if !mod.loadOk then ⟨m, none, []⟩
  else
    match mod.members.find? (fun c => c.isPluginClass) with
    | none => ⟨m, none, []⟩
    | some cls =>
      match cls.initResult with
      | .error _ => ⟨m, none, [.initCall cls.instName]⟩
      | .ok false => ⟨m, none, [.initCall cls.instName]⟩
      | .ok true =>
        let plugin : Plugin := ⟨cls.instName, cls.instVersion, true, cls.instHooks⟩
        ⟨{ m with plugins := dictInsert m.plugins plugin.name plugin },
         some plugin, [.initCall cls.instName]⟩

/-- `PluginManager.unload_plugin`: an unknown name returns `False`; then the
plugin's `shutdown()` is called (`shutdownEnv` gives its outcome per plugin
name) — returning `False`, or raising (caught by the `except`), aborts the
unload with the plugin still registered and returns `False`; returning
`True` removes the registry entry and returns `True`. -/
def PluginManager.unloadPlugin (m : PluginManager)
    (shutdownEnv : String → Except PyErr Bool) (name : String) :
    PluginManager × Bool × List LifecycleCall :=
  match dictGet m.plugins name with
  | none => (m, false, [])
  | some _ =>
    match shutdownEnv name with
    | .error _ => (m, false, [.shutdownCall name])
    | .ok false => (m, false, [.shutdownCall name])
    | .ok true =>
      ({ m with plugins := dictRemove m.plugins name }, true, [.shutdownCall name])

/-- `PluginManager.register_hook`: the global registration path, additive. -/
def PluginManager.registerHook (m : PluginManager) (h : PluginHook) (cb : Nat) :
    PluginManager :=
  { m with hooks := fun h2 => if h2 = h then m.hooks h ++ [cb] else m.hooks h2 }

/-- Setting `plugin.enabled` on the instance held by the registry. -/
def Plugin.setEnabled (p : Plugin) (b : Bool) : Plugin :=
  { p with enabled := b }

/-- `PluginManager.disable_plugin`: toggles the flag on the registered
instance (in place); returns `False` for an unknown name. -/
def PluginManager.disablePlugin (m : PluginManager) (name : String) :
    PluginManager × Bool :=
  match dictGet m.plugins name with
  | some _ =>
    ({ m with plugins :=
        (m.plugins.map (fun q =>
          if q.1 = name then (q.1, q.2.setEnabled false) else q)) },
     true)
  | none => (m, false)

/-- `PluginManager.enable_plugin`. -/
def PluginManager.enablePlugin (m : PluginManager) (name : String) :
    PluginManager × Bool :=
  match dictGet m.plugins name with
  | some _ =>
    ({ m with plugins :=
        (m.plugins.map (fun q =>
          if q.1 = name then (q.1, q.2.setEnabled true) else q)) },
     true)
  | none => (m, false)

/-- The `try ... except` callback loops of `trigger_hook`: every callback in
the list is invoked; a raising callback is caught (only printed) and
contributes no result.  Returns (collected results, invoked callback ids). -/
def runCbs (env : CbEnv) : List Nat → List PyObj × List Nat
  | [] => ([], [])
  | c :: rest =>
    match env c with
    | .ok v => (v :: (runCbs env rest).1, c :: (runCbs env rest).2)
    | .error _ => ((runCbs env rest).1, c :: (runCbs env rest).2)

/-- `PluginManager.trigger_hook`: first all globally registered callbacks
for the hook, then — iterating `self.plugins.values()` in registry
(insertion) order — each plugin's callbacks for the hook, with `continue`
skipping plugins whose `enabled` flag is off.  The `enabled` check guards
only this second loop. -/
def PluginManager.triggerHook (m : PluginManager) (env : CbEnv) (h : PluginHook) :
    List PyObj × List Nat :=
  m.plugins.foldl
    (fun acc q =>
      if q.2.enabled then
        (acc.1 ++ (runCbs env (q.2.getHookCallbacks h)).1,
         acc.2 ++ (runCbs env (q.2.getHookCallbacks h)).2)
      else acc)
    (runCbs env (m.hooks h))

/-- Closed form of the callback loop: every callback is invoked, in list
order; the results are the non-raising callbacks' values in that order. -/
theorem runCbs_eq (env : CbEnv) (cbs : List Nat) :
    runCbs env cbs = (cbs.filterMap (fun c => (env c).toOption), cbs) := by
  induction cbs with
  | nil => rfl
  | cons c rest ih =>
    simp only [runCbs, List.filterMap_cons]
    cases h : env c <;> simp [ih, Except.toOption, h]

/-- The callback order `trigger_hook` realises: global registrations first,
then each enabled plugin's callbacks in registry order. -/
def hookCallOrder (m : PluginManager) (h : PluginHook) : List Nat :=
  m.hooks h
    ++ ((m.plugins.map Prod.snd).filter (fun p => p.enabled)).flatMap
        (fun p => p.getHookCallbacks h)

theorem triggerHook_fold (env : CbEnv) (h : PluginHook) :
    ∀ (ps : List (String × Plugin)) (acc : List PyObj × List Nat),
      ps.foldl
        (fun acc q =>
          if q.2.enabled then
            (acc.1 ++ (runCbs env (q.2.getHookCallbacks h)).1,
             acc.2 ++ (runCbs env (q.2.getHookCallbacks h)).2)
          else acc) acc
      = (acc.1
            ++ (((ps.map Prod.snd).filter (fun p => p.enabled)).flatMap
                (fun p => p.getHookCallbacks h)).filterMap
                  (fun c => (env c).toOption),
         acc.2
            ++ ((ps.map Prod.snd).filter (fun p => p.enabled)).flatMap
                (fun p => p.getHookCallbacks h)) := by
  intro ps
  induction ps with
  | nil => intro acc; simp
  | cons q rest ih =>
    intro acc
    simp only [List.foldl_cons, List.map_cons]
    by_cases hq : q.2.enabled = true
    · rw [if_pos hq, ih]
      simp [hq, runCbs_eq, List.filterMap_append, List.append_assoc,
        List.filter_cons]
    · rw [if_neg hq, ih]
      simp [hq, List.filter_cons]

/-- C3 (amended): `trigger_hook` invokes, in order, first all globally
registered callbacks for the hook, then for each **enabled** plugin in
registry order that plugin's callbacks; a disabled plugin's per-plugin
callbacks are skipped, but the global loop runs every globally registered
callback regardless of which plugin registered it (the manager keeps no
owner for global registrations); a raising callback is caught and all
subsequent callbacks are still invoked, the results being the non-raising
callbacks' values in call order. -/
theorem trigger_hook_order (m : PluginManager) (env : CbEnv) (h : PluginHook) :
    (m.triggerHook env h).2 = hookCallOrder m h
      ∧ (m.triggerHook env h).1
          = (hookCallOrder m h).filterMap (fun c => (env c).toOption) := by
  unfold PluginManager.triggerHook hookCallOrder
  rw [triggerHook_fold env h m.plugins (runCbs env (m.hooks h))]
  simp [runCbs_eq, List.filterMap_append]

/-- The module of the plugin `p` used in concrete plugin scenarios. -/
def cexModule : PyModule :=
  ⟨true, true, [⟨"PluginP", true, "p", "1.0.0", .ok true, fun _ => []⟩]⟩

/-- Scenario refuting the skipped-global-entries clause: plugin `p` is
loaded, registers callback 0 through the manager's global path, and is then
disabled. -/
def cexMgr : PluginManager :=
  ((((PluginManager.init.loadPlugin cexModule).mgr).registerHook
      PluginHook.on_startup 0).disablePlugin "p").1

/-- C3 counterexample: with plugin `p` disabled and callback 0 registered
via the global path, `trigger_hook` still invokes callback 0 — a disabled
plugin's global-path registrations are NOT skipped. -/
theorem trigger_hook_disabled_global_cex :
    (cexMgr.triggerHook okEnv PluginHook.on_startup).2 = [0]
      ∧ (dictGet cexMgr.plugins "p").map Plugin.enabled = some false :=
  ⟨rfl, rfl⟩

/-- C6: `unload_plugin` on a registered plugin whose `shutdown()` returns
failure reports failure (returns `False`) and leaves the registry — hence
the plugin's registration and the hook dispatch it receives — unchanged. -/
theorem unload_plugin_shutdown_failure (m : PluginManager)
    (senv : String → Except PyErr Bool) (name : String) (p : Plugin)
    (hreg : dictGet m.plugins name = some p) (hfail : senv name = .ok false) :
    (m.unloadPlugin senv name).1 = m
      ∧ (m.unloadPlugin senv name).2.1 = false
      ∧ dictGet (m.unloadPlugin senv name).1.plugins name = some p
      ∧ (∀ env h, (m.unloadPlugin senv name).1.triggerHook env h
            = m.triggerHook env h) := by
  unfold PluginManager.unloadPlugin
  rw [hreg, hfail]
  exact ⟨rfl, rfl, hreg, fun env h => rfl⟩

/-- A registered plugin named `p`, and a `shutdown()` behaviour that always
reports failure, for the concrete unload scenario. -/
def stubPlugin : Plugin := ⟨"p", "1.0.0", true, fun _ => []⟩

def mgrOne : PluginManager := ⟨[("p", stubPlugin)], fun _ => []⟩

def failShutdownEnv : String → Except PyErr Bool := fun _ => .ok false

theorem unload_plugin_shutdown_failure_witness :
    (mgrOne.unloadPlugin failShutdownEnv "p").1 = mgrOne
      ∧ (mgrOne.unloadPlugin failShutdownEnv "p").2.1 = false
      ∧ dictGet (mgrOne.unloadPlugin failShutdownEnv "p").1.plugins "p"
          = some stubPlugin
      ∧ (∀ env h, (mgrOne.unloadPlugin failShutdownEnv "p").1.triggerHook env h
            = mgrOne.triggerHook env h) :=
  unload_plugin_shutdown_failure mgrOne failShutdownEnv "p" stubPlugin rfl rfl

theorem find?_map_replace (k : String) (v : Plugin) :
    ∀ m : List (String × Plugin), m.any (fun q => q.1 == k) = true →
      (m.map (fun q => if q.1 = k then (k, v) else q)).find?
          (fun q => q.1 == k) = some (k, v) := by
  intro m
  induction m with
  | nil => intro h; simp at h
  | cons q rest ih =>
    intro h
    by_cases hq : q.1 = k
    · simp only [List.map_cons, if_pos hq]
      rw [List.find?_cons_of_pos _ (by simp)]
    · simp only [List.map_cons, if_neg hq]
      rw [List.find?_cons_of_neg _ (by simp [hq])]
      apply ih
      simp only [List.any_cons, Bool.or_eq_true] at h
      rcases h with h | h
      · exact absurd (by simpa using h) hq
      · exact h

/-- Dict assignment then lookup at the same key finds the new value. -/
theorem dictGet_dictInsert (m : List (String × Plugin)) (k : String)
    (v : Plugin) : dictGet (dictInsert m k v) k = some v := by
  unfold dictGet dictInsert
  by_cases h : m.any (fun q => q.1 == k) = true
  · rw [if_pos h, find?_map_replace k v m h]
    rfl
  · rw [if_neg h, List.find?_append]
    have hnone : m.find? (fun q => q.1 == k) = none := by
      rw [List.find?_eq_none]
      intro x hx hpx
      exact h (List.any_eq_true.mpr ⟨x, hx, hpx⟩)
    rw [hnone]
    simp

/-- Dict assignment at an existing key keeps the key sequence unchanged
(in-place replacement). -/
theorem dictInsert_keys_of_mem (m : List (String × Plugin)) (k : String)
    (v : Plugin) (h : m.any (fun q => q.1 == k) = true) :
    (dictInsert m k v).map Prod.fst = m.map Prod.fst := by
  unfold dictInsert
  rw [if_pos h, List.map_map]
  apply List.map_congr_left
  intro q _
  by_cases hq : q.1 = k
  · simp [Function.comp, hq]
  · simp [Function.comp, hq]

/-- The instance `load_plugin` builds and registers from the found class. -/
def mkPlugin (cls : ModuleMember) : Plugin :=
  ⟨cls.instName, cls.instVersion, true, cls.instHooks⟩

/-- C9: loading a plugin whose declared name equals a registered plugin's
name silently overwrites that registry entry in place: afterwards the name
maps to the new instance, the registry's key sequence is unchanged and
still duplicate-free (at most one plugin under the name), and no
`shutdown()` call is made on anything during the load. -/
theorem load_plugin_overwrite (m : PluginManager) (mod : PyModule)
    (cls : ModuleMember) (old : Plugin)
    (hnd : (m.plugins.map Prod.fst).Nodup)
    (hex : mod.pathExists = true) (hok : mod.loadOk = true)
    (hfind : mod.members.find? (fun c => c.isPluginClass) = some cls)
    (hinit : cls.initResult = Except.ok true)
    (hold : dictGet m.plugins cls.instName = some old) :
    dictGet (m.loadPlugin mod).mgr.plugins cls.instName = some (mkPlugin cls)
      ∧ (m.loadPlugin mod).mgr.plugins.map Prod.fst = m.plugins.map Prod.fst
      ∧ ((m.loadPlugin mod).mgr.plugins.map Prod.fst).Nodup
      ∧ (∀ c, LifecycleCall.shutdownCall c ∉ (m.loadPlugin mod).calls) := by
  have hany : m.plugins.any (fun q => q.1 == cls.instName) = true := by
    unfold dictGet at hold
    cases hfq : m.plugins.find? (fun q => q.1 == cls.instName) with
    | none => rw [hfq] at hold; simp at hold
    | some qp =>
      have hp := List.find?_some hfq
      exact List.any_eq_true.mpr ⟨qp, List.mem_of_find?_eq_some hfq, hp⟩
  have hres : m.loadPlugin mod
      = ⟨{ m with plugins := dictInsert m.plugins cls.instName (mkPlugin cls) },
         some (mkPlugin cls), [.initCall cls.instName]⟩ := by
    simp [PluginManager.loadPlugin, hex, hok, hfind, hinit, mkPlugin]
  rw [hres]
  refine ⟨dictGet_dictInsert _ _ _, dictInsert_keys_of_mem _ _ _ hany, ?_, ?_⟩
  · show ((dictInsert m.plugins cls.instName (mkPlugin cls)).map Prod.fst).Nodup
    rw [dictInsert_keys_of_mem _ _ _ hany]
    exact hnd
  · intro c hc
    simp only [List.mem_singleton] at hc
    cases hc

theorem load_plugin_overwrite_witness :
    dictGet (mgrOne.loadPlugin cexModule).mgr.plugins "p"
        = some (mkPlugin ⟨"PluginP", true, "p", "1.0.0", .ok true, fun _ => []⟩)
      ∧ (mgrOne.loadPlugin cexModule).mgr.plugins.map Prod.fst
          = mgrOne.plugins.map Prod.fst
      ∧ ((mgrOne.loadPlugin cexModule).mgr.plugins.map Prod.fst).Nodup
      ∧ (∀ c, LifecycleCall.shutdownCall c
            ∉ (mgrOne.loadPlugin cexModule).calls) :=
  load_plugin_overwrite mgrOne cexModule
    ⟨"PluginP", true, "p", "1.0.0", .ok true, fun _ => []⟩ stubPlugin
    (by decide) rfl rfl rfl rfl rfl

/-- C8 (amended): when the module exposes no `BasePlugin` subclass,
`load_plugin` fails — it returns `None` (with a printed message; the
reference reports the failure this way rather than raising a
`ContractError` exception type) — and registers nothing; but when the
module exposes more than one subclass it does NOT fail: the member scan
`break`s at the first subclass in `getmembers` order and the whole load
behaves exactly as if that first subclass were the module's only member. -/
theorem load_plugin_contract (m : PluginManager) (mod : PyModule) :
    (mod.members.find? (fun c => c.isPluginClass) = none →
        (m.loadPlugin mod).result = none
          ∧ (m.loadPlugin mod).mgr = m
          ∧ (m.loadPlugin mod).calls = [])
      ∧ (∀ cls : ModuleMember,
          mod.pathExists = true → mod.loadOk = true →
          mod.members.find? (fun c => c.isPluginClass) = some cls →
          m.loadPlugin mod = m.loadPlugin ⟨true, true, [cls]⟩) := by
  constructor
  · intro hnone
    unfold PluginManager.loadPlugin
    cases hex : mod.pathExists with
    | false => exact ⟨rfl, rfl, rfl⟩
    | true =>
      cases hok : mod.loadOk with
      | false => exact ⟨rfl, rfl, rfl⟩
      | true =>
        rw [hnone]
        exact ⟨rfl, rfl, rfl⟩
  · intro cls hex hok hfind
    have hcls : cls.isPluginClass = true := by
      have hp := List.find?_some hfind
      simpa using hp
    have hone : List.find? (fun c => c.isPluginClass) [cls] = some cls :=
      List.find?_cons_of_pos _ (by simpa using hcls)
    simp [PluginManager.loadPlugin, hex, hok, hfind, hone]

/-- Two distinct `BasePlugin` subclasses in one module, in member order. -/
def ambModule : PyModule :=
  ⟨true, true,
    [⟨"AlphaPlugin", true, "alpha", "1.0.0", .ok true, fun _ => []⟩,
     ⟨"BetaPlugin", true, "beta", "1.0.0", .ok true, fun _ => []⟩]⟩

/-- C8 counterexample: a module exposing TWO `BasePlugin` subclasses is not
rejected — `load_plugin` silently instantiates, registers and returns the
first one (`alpha`), refuting "fail with ContractError if ambiguous". -/
theorem load_plugin_ambiguous_cex :
    ((PluginManager.init.loadPlugin ambModule).result).map Plugin.name
        = some "alpha"
      ∧ (PluginManager.init.loadPlugin ambModule).mgr.plugins.map Prod.fst
        = ["alpha"] :=
  ⟨rfl, rfl⟩

/-- Qt signals of `CodeExecutor` (from `code_executor.py`), plus the ghost
marker `processCreated` for a `subprocess.Popen` call that returns a child
process (the claims speak about child processes being created). -/
inductive ExecEvent
  | outputReceived (s : String)
  | errorReceived (s : String)
  | executionFinished (code : Int)
  | executionStarted
  | processCreated
  deriving DecidableEq, Repr

/-- From `code_executor.py`, class `CodeExecutor`: the `is_running` flag and
whether `self.process` currently holds a process object. -/
structure CodeExecutor where
  isRunning : Bool
  hasProcess : Bool
  deriving DecidableEq, Repr

/-- `CodeExecutor.__init__`: `process = None`, `is_running = False`. -/
def CodeExecutor.init : CodeExecutor := ⟨false, false⟩

/-- Outcome of the `subprocess.Popen` call in `_execute_python_thread`:
either the constructor raises with message `msg` (e.g. permission denied),
or a child process is created that yields the given stdout lines, stderr
text and exit code. -/
inductive SpawnOutcome
  | fail (msg : String)
  | run (out : List String) (errText : String) (code : Int)

/-- The `"-" * 60 + "\n"` separator line. -/
def sepLine : String :=
  "------------------------------------------------------------\n"

/-- The three header `output_received` emissions of the worker. -/
def execHeader (filePath workingDir : String) : List ExecEvent :=
  [.outputReceived ("Executing: " ++ filePath ++ "\n"),
   .outputReceived ("Working directory: " ++ workingDir ++ "\n"),
   .outputReceived sepLine]

/-- `CodeExecutor._execute_python_thread`: emits the header; a raising
`Popen` is caught by the `except` (error message plus
`execution_finished(-1)`); a created child's stdout is relayed line by
line, its stderr — when nonempty (Python truthiness) — through
`error_received` after stdout is drained, then the footer and
`execution_finished(return code)` fire; the `finally` clears `is_running`
and `process` on every path. -/
def CodeExecutor.executeThread (c : CodeExecutor) (filePath workingDir : String)
    (spawn : SpawnOutcome) : CodeExecutor × List ExecEvent :=
  match spawn with
  | .fail msg =>
    (⟨false, false⟩,
     execHeader filePath workingDir
       ++ [.errorReceived ("Execution error: " ++ msg ++ "\n"),
           .executionFinished (-1)])
  | .run out errText code =>
    (⟨false, false⟩,
     execHeader filePath workingDir
       ++ [.processCreated]
       ++ out.map ExecEvent.outputReceived
       ++ (if errText = "" then [] else [.errorReceived errText])
       ++ [.outputReceived sepLine,
           .outputReceived ("Process exited with code: " ++ toString code ++ "\n"),
           .executionFinished code])

/-- `CodeExecutor.execute_python`, composed sequentially with the worker
thread's eventual run: a call while `is_running` is rejected through
`error_received` with nothing else happening; a missing file is rejected
through `error_received` before anything starts; otherwise
`execution_started` fires, `is_running` is set, and the worker body runs. -/
def CodeExecutor.executePython (c : CodeExecutor) (filePath workingDir : String)
    (fileExists : Bool) (spawn : SpawnOutcome) : CodeExecutor × List ExecEvent :=
  if c.isRunning then
    (c, [.errorReceived "Execution already in progress"])
  else if !fileExists then
    (c, [.errorReceived ("File not found: " ++ filePath)])
  else
    let c2 : CodeExecutor := { c with isRunning := true }
    let r := c2.executeThread filePath workingDir spawn
    (r.1, .executionStarted :: r.2)

/-- C5: calling `execute` while a previous execution is still running is
rejected immediately through the error channel (`error_received`), emits
nothing else, creates no child process, starts no execution, and leaves the
executor's state — hence the running execution — unchanged. -/
theorem execute_single_flight (c : CodeExecutor) (filePath workingDir : String)
    (fileExists : Bool) (spawn : SpawnOutcome) (h : c.isRunning = true) :
    (c.executePython filePath workingDir fileExists spawn).1 = c
      ∧ (c.executePython filePath workingDir fileExists spawn).2
          = [.errorReceived "Execution already in progress"]
      ∧ ExecEvent.processCreated
          ∉ (c.executePython filePath workingDir fileExists spawn).2
      ∧ ExecEvent.executionStarted
          ∉ (c.executePython filePath workingDir fileExists spawn).2 := by
  simp [CodeExecutor.executePython, h]

theorem execute_single_flight_witness :
    ((⟨true, true⟩ : CodeExecutor).executePython "f.py" "." true
        (.run ["hi\n"] "" 0)).1 = (⟨true, true⟩ : CodeExecutor)
      ∧ ((⟨true, true⟩ : CodeExecutor).executePython "f.py" "." true
          (.run ["hi\n"] "" 0)).2
          = [.errorReceived "Execution already in progress"]
      ∧ ExecEvent.processCreated
          ∉ ((⟨true, true⟩ : CodeExecutor).executePython "f.py" "." true
              (.run ["hi\n"] "" 0)).2
      ∧ ExecEvent.executionStarted
          ∉ ((⟨true, true⟩ : CodeExecutor).executePython "f.py" "." true
              (.run ["hi\n"] "" 0)).2 :=
  execute_single_flight ⟨true, true⟩ "f.py" "." true (.run ["hi\n"] "" 0) rfl

/-- C7 counterexample: when the file exists but `Popen` raises (e.g.
permission denied), the engine does NOT go straight back to Idle without
reaching Running: `execution_started` fires (Running is entered) before the
error is reported, and the failure is also reported through
`execution_finished(-1)` — not only through the error callback. -/
theorem spawn_failure_cex :
    ExecEvent.executionStarted
        ∈ (CodeExecutor.init.executePython "f.py" "." true (.fail "perm")).2
      ∧ ExecEvent.executionFinished (-1)
        ∈ (CodeExecutor.init.executePython "f.py" "." true (.fail "perm")).2
      ∧ ExecEvent.errorReceived "Execution error: perm\n"
        ∈ (CodeExecutor.init.executePython "f.py" "." true (.fail "perm")).2 := by
  refine ⟨?_, ?_, ?_⟩ <;> decide

/-- C7 (amended): a missing target is reported synchronously through
`error_received`, with the engine never leaving Idle — no
`execution_started`, no `execution_finished`, no child process, state
unchanged.  A `Popen` failure inside the worker (e.g. permission denied) is
different: `execution_started` has already fired (Running was entered), the
caught failure is reported through `error_received` AND through
`execution_finished(-1)`, and the engine then returns to not-running with
no child created.  A successful spawn is reported through
`execution_finished` carrying the child's actual exit code as the last
event of the run. -/
theorem spawn_failure_reporting (c : CodeExecutor)
    (filePath workingDir msg errText : String) (out : List String) (code : Int)
    (hidle : c.isRunning = false) :
    ((c.executePython filePath workingDir false (.fail msg)).1 = c
      ∧ (c.executePython filePath workingDir false (.fail msg)).2
          = [.errorReceived ("File not found: " ++ filePath)]
      ∧ ExecEvent.executionStarted
          ∉ (c.executePython filePath workingDir false (.fail msg)).2
      ∧ (∀ k, ExecEvent.executionFinished k
          ∉ (c.executePython filePath workingDir false (.fail msg)).2)
      ∧ ExecEvent.processCreated
          ∉ (c.executePython filePath workingDir false (.fail msg)).2)
    ∧ ((c.executePython filePath workingDir true (.fail msg)).1.isRunning = false
      ∧ ExecEvent.errorReceived ("Execution error: " ++ msg ++ "\n")
          ∈ (c.executePython filePath workingDir true (.fail msg)).2
      ∧ ExecEvent.executionFinished (-1)
          ∈ (c.executePython filePath workingDir true (.fail msg)).2
      ∧ ExecEvent.executionStarted
          ∈ (c.executePython filePath workingDir true (.fail msg)).2
      ∧ ExecEvent.processCreated
          ∉ (c.executePython filePath workingDir true (.fail msg)).2)
    ∧ ((c.executePython filePath workingDir true
          (.run out errText code)).2.getLast?
        = some (.executionFinished code)) := by
  refine ⟨⟨?_, ?_, ?_, ?_, ?_⟩, ⟨?_, ?_, ?_, ?_, ?_⟩, ?_⟩
  · simp [CodeExecutor.executePython, hidle]
  · simp [CodeExecutor.executePython, hidle]
  · simp [CodeExecutor.executePython, hidle]
  · intro k
    simp [CodeExecutor.executePython, hidle]
  · simp [CodeExecutor.executePython, hidle]
  · simp [CodeExecutor.executePython, hidle, CodeExecutor.executeThread]
  · simp [CodeExecutor.executePython, hidle, CodeExecutor.executeThread,
      execHeader]
  · simp [CodeExecutor.executePython, hidle, CodeExecutor.executeThread,
      execHeader]
  · simp [CodeExecutor.executePython, hidle, CodeExecutor.executeThread,
      execHeader]
  · simp [CodeExecutor.executePython, hidle, CodeExecutor.executeThread,
      execHeader]
  · simp only [CodeExecutor.executePython, hidle, Bool.false_eq_true, if_false,
      Bool.not_true, CodeExecutor.executeThread]
    rw [List.getLast?_cons]
    by_cases he : errText = ""
    · simp [he, List.getLast?_append, List.getLast?_cons]
    · simp [he, List.getLast?_append, List.getLast?_cons]

theorem spawn_failure_reporting_witness :
    ((CodeExecutor.init.executePython "f.py" "." false (.fail "perm")).1
          = CodeExecutor.init
      ∧ (CodeExecutor.init.executePython "f.py" "." false (.fail "perm")).2
          = [.errorReceived ("File not found: " ++ "f.py")]
      ∧ ExecEvent.executionStarted
          ∉ (CodeExecutor.init.executePython "f.py" "." false (.fail "perm")).2
      ∧ (∀ k, ExecEvent.executionFinished k
          ∉ (CodeExecutor.init.executePython "f.py" "." false (.fail "perm")).2)
      ∧ ExecEvent.processCreated
          ∉ (CodeExecutor.init.executePython "f.py" "." false (.fail "perm")).2)
    ∧ ((CodeExecutor.init.executePython "f.py" "." true (.fail "perm")).1.isRunning
          = false
      ∧ ExecEvent.errorReceived ("Execution error: " ++ "perm" ++ "\n")
          ∈ (CodeExecutor.init.executePython "f.py" "." true (.fail "perm")).2
      ∧ ExecEvent.executionFinished (-1)
          ∈ (CodeExecutor.init.executePython "f.py" "." true (.fail "perm")).2
      ∧ ExecEvent.executionStarted
          ∈ (CodeExecutor.init.executePython "f.py" "." true (.fail "perm")).2
      ∧ ExecEvent.processCreated
          ∉ (CodeExecutor.init.executePython "f.py" "." true (.fail "perm")).2)
    ∧ ((CodeExecutor.init.executePython "f.py" "." true
          (.run ["hi\n"] "" 1)).2.getLast?
        = some (.executionFinished 1)) :=
  spawn_failure_reporting CodeExecutor.init "f.py" "." "perm" "" ["hi\n"] 1 rfl
